import Mathlib

/-!
Verification development for the Technolab dashboard repository.

The file shallowly embeds the data-handling routines of `src/app.py` and
`src/app_bim_dashboard.py` in Lean: strings become `List Char`, pandas /
SQL null values become `Option`, SQL numeric values become `Int` / `Rat`,
and a query that may fail (the `q` helper catches every exception and
returns an empty frame) becomes an `Option`-valued result governed by an
explicit failure flag.  Floating-point quantities (coordinates, sensor
readings, distances) are modelled by exact rationals; the haversine
distance itself is kept abstract as a parameter of the route builder.

Definitions come first, the supporting lemmas and the claim theorems after.
-/

namespace Technolab

/- ### Character-level utilities -/

/-- Whitespace class used by the Python regex `\s` and by `str.strip`,
restricted to the ASCII range handled by the dashboard data. -/
def isSpaceChar (c : Char) : Bool :=
  decide (c.toNat = 32 ∨ c.toNat = 9 ∨ c.toNat = 10 ∨ c.toNat = 13 ∨ c.toNat = 11 ∨ c.toNat = 12)

/-- ASCII digit class used by the Python regex `\d`. -/
def isDigitChar (c : Char) : Bool :=
  decide (48 ≤ c.toNat ∧ c.toNat ≤ 57)

/-- Decimal-separator class of the coordinate regex `[.,]`. -/
def isSepChar (c : Char) : Bool :=
  decide (c = ',' ∨ c = '.')

/-- Action of Python `str.lower` on a single ASCII character. -/
def lowerChar (c : Char) : Char :=
  if 65 ≤ c.toNat ∧ c.toNat ≤ 90 then Char.ofNat (c.toNat + 32) else c

/- ### Python `str.strip` -/

/-- Left part of Python `str.strip`: drop leading whitespace. -/
def stripLeft (l : List Char) : List Char := l.dropWhile isSpaceChar

/-- Right part of Python `str.strip`: drop trailing whitespace. -/
def stripRight (l : List Char) : List Char := (l.reverse.dropWhile isSpaceChar).reverse

/-- Embedding of Python `str.strip`: drop whitespace on both ends. -/
def pyStrip (l : List Char) : List Char := stripLeft (stripRight l)

/- ### The identifier normalizer `_norm_bim_series` (src/app.py, lines 80-84) -/

/-- Effect on one string of the pandas substitution
`x.str.replace(r"^\s*bim\s*", "", regex=True)`: if the string consists of
optional whitespace followed by the lowercase literal `bim`, that prefix and
the whitespace following it are removed; otherwise the string is unchanged.
The pattern is compiled without `re.IGNORECASE` and pandas passes no `case`
argument, so the match is case-sensitive: only lowercase `bim` matches. -/
def dropBim (s : List Char) : List Char :=
  match s.dropWhile isSpaceChar with
  | 'b' :: 'i' :: 'm' :: rest => rest.dropWhile isSpaceChar
  | _ => s

/-- Effect on one string of `Series.replace({"none": "", "null": "", "ninguno": ""})`:
an exact whole-string match of one of the three placeholder tokens becomes the
empty string. -/
def tokenBlank (s : List Char) : List Char :=
  if s = "none".toList ∨ s = "null".toList ∨ s = "ninguno".toList then [] else s

/-- Element-wise embedding of `_norm_bim_series` (src/app.py): a missing value
becomes the empty string (`astype("string").fillna("")`), then `str.strip`,
then removal of a leading lowercase `bim` prefix, then `str.lower`, then the
placeholder tokens `none`/`null`/`ninguno` are blanked. -/
def norm_bim (x : Option (List Char)) : List Char :=
  tokenBlank ((dropBim (pyStrip (x.getD []))).map lowerChar)

/- ### Catalog builder (spec section 4.2) -/

/-- Modelled from the spec: one record of `AttributeRows` (the `biorreactores`
attribute table), carrying an optional client name and an optional raw device
identifier.  The physical attributes (species, aerator, height, light flag,
coordinates, install date) play no role in any claim and are omitted; on the
fallback path the spec attaches them as nulls. -/
structure AttrRow where
  cliente : Option (List Char)
  numero_bim : Option (List Char)
deriving DecidableEq

/-- Modelled from the spec: one row of the reconciled catalog — a client name
(possibly the sentinel `(none)`) and a normalized device identifier. -/
structure CatRow where
  cliente : List Char
  numero_bim : List Char
deriving DecidableEq

/-- Modelled from the spec: resolve the client of a device discovered only in
the logs, via `UserLatestActivity[identifier] → user id → UserClient[user id]
→ client name`; if any lookup fails the sentinel `(none)` is used. -/
def resolveClient (ula : List Char → Option Nat) (uc : Nat → Option (List Char))
    (id : List Char) : List Char :=
  (((ula id).bind uc)).getD "(none)".toList

/-- Modelled from the spec, step 5 of the catalog algorithm: drop rows with an
empty identifier and de-duplicate by the (client, identifier) pair (a catalog
row in this model consists of exactly that pair). -/
def catalogFinalize (rows : List CatRow) : List CatRow :=
  (rows.filter (fun r => !r.numero_bim.isEmpty)).dedup

/-- Modelled from the spec (section 4.2, the catalog reconciliation routine;
its fallback path is present in repository revisions that are not under
`src/`, where `get_biorreactores` keeps only the authoritative query while
`_norm_bim_series` survives unused).  If `AttributeRows` is non-empty it is
authoritative: client names are trimmed and identifiers normalized.  Otherwise
the identifiers of the activity and event logs are unioned, normalized and
de-duplicated, and each surviving identifier gets its best-effort client name.
Step 5 (drop empty identifiers, de-duplicate by pair) finishes both paths. -/
def buildCatalog (attrs : List AttrRow) (act evt : List (Option (List Char)))
    (ula : List Char → Option Nat) (uc : Nat → Option (List Char)) : List CatRow :=
  if attrs.isEmpty then
    let ids := ((act ++ evt).map norm_bim).dedup
    catalogFinalize (ids.map (fun i => { cliente := resolveClient ula uc i, numero_bim := i }))
  else
    catalogFinalize (attrs.map
      (fun r => { cliente := pyStrip (r.cliente.getD []), numero_bim := norm_bim r.numero_bim }))

/-- Activity-log identifiers of the end-to-end scenario of claim C7. -/
def c7Act : List (Option (List Char)) :=
  [some "BIM 1".toList, some "bim1".toList, some " 1 ".toList]

/-- User-latest-activity mapping of the C7 scenario: every identifier maps to
the single user 1. -/
def c7Ula : List Char → Option Nat := fun _ => some 1

/-- User-to-client mapping of the C7 scenario: user 1 belongs to client `agro`. -/
def c7Uc : Nat → Option (List Char) := fun _ => some "agro".toList

/- ### KPI aggregator `get_kpis` (src/app.py, lines 262-281) -/

/-- Row of the `clientes` table as read by `get_kpis`: only the self-reported
`BIMs_instalados` column matters, nullable in SQL. -/
structure ClientRow where
  BIMs_instalados : Option Int
deriving DecidableEq

/-- Row of the `biorreactores` table as read by `get_kpis`: the raw
`numero_bim` column, nullable in SQL. -/
structure BioRow where
  numero_bim : Option (List Char)
deriving DecidableEq

/-- Row of the `registros` activity log: the raw `BIM` identifier column. -/
structure RegRow where
  BIM : Option (List Char)
deriving DecidableEq

/-- Row of the `fechas_BIMs` event log: the raw `numero_bim` identifier column. -/
structure EventRow where
  numero_bim : Option (List Char)
deriving DecidableEq

/-- The five tables read by the KPI aggregator.  Rows of `diagnosticos` carry
no field used by any embedded query, so they are bare `Unit`s. -/
structure KpiDb where
  clientes : List ClientRow
  biorreactores : List BioRow
  registros : List RegRow
  diagnosticos : List Unit
  fechas_BIMs : List EventRow
deriving DecidableEq

/-- Failure flags, one per SQL query issued by `get_kpis`.  The `q` helper
(src/app.py, lines 73-78) catches every exception of a query and returns an
empty data frame, so a failed query is observed as an empty result. -/
structure KpiFailures where
  fClientes : Bool
  fSuma : Bool
  fBio : Bool
  fDiag : Bool
  fRegs : Bool
  fEventos : Bool
deriving DecidableEq

/-- Result of `q("SELECT COUNT(*) ...")` over a table: an empty frame on
failure (`none`), otherwise a single row holding the row count. -/
def sqlCount (fail : Bool) (rows : List α) : Option Nat :=
  if fail then none else some rows.length

/-- Result of `q("SELECT SUM(COALESCE(BIMs_instalados,0)) ...")`: an empty
frame on failure; otherwise a single row whose cell is the SQL `NULL`
(`some none`) when the table is empty, and the coalesced sum otherwise. -/
def sqlSumInstalled (fail : Bool) (cs : List ClientRow) : Option (Option Int) :=
  if fail then none
  else some (if cs.isEmpty then none
             else some ((cs.map (fun c => c.BIMs_instalados.getD 0)).sum))

/-- Result of `q("SELECT numero_bim FROM biorreactores WHERE numero_bim IS NOT
NULL")`: an empty frame on failure, otherwise the raw non-null identifiers. -/
def sqlBimList (fail : Bool) (bs : List BioRow) : List (List Char) :=
  if fail then [] else bs.filterMap (fun b => b.numero_bim)

/-- Python `int(...)` applied to the single cell of the sum frame, guarded by
`if not df.empty else 0`: an empty frame yields 0, a SQL `NULL` cell makes
`int` raise (modelled as `Except.error`), a numeric cell converts. -/
def intOfSumCell : Option (Option Int) → Except Unit Int
  | none => Except.ok 0
  | some none => Except.error ()
  | some (some v) => Except.ok v

/-- Embedding of `get_kpis` (src/app.py, lines 262-281).  The five counts are
(clients, devices, diagnostics, activity records, events); the device count is
`max` of the coalesced client-reported sum and the number of distinct raw
non-null `numero_bim` values of `biorreactores`.  An uncaught `int(NULL)`
conversion error surfaces as `Except.error`. -/
def get_kpis (f : KpiFailures) (db : KpiDb) : Except Unit (Nat × Int × Nat × Nat × Nat) :=
  let total_clientes := (sqlCount f.fClientes db.clientes).getD 0
  match intOfSumCell (sqlSumInstalled f.fSuma db.clientes) with
  | Except.error e => Except.error e
  | Except.ok sum_clientes =>
    let df_bio := sqlBimList f.fBio db.biorreactores
    let distinct_bims : Nat := if df_bio.isEmpty then 0 else df_bio.dedup.length
    let total_bims : Int := max sum_clientes (distinct_bims : Int)
    let total_diag := (sqlCount f.fDiag db.diagnosticos).getD 0
    let total_regs := (sqlCount f.fRegs db.registros).getD 0
    let total_eventos := (sqlCount f.fEventos db.fechas_BIMs).getD 0
    Except.ok (total_clientes, total_bims, total_diag, total_regs, total_eventos)

/-- Device-count formula stated by claim C3, written from the claim's own
words for comparison with `get_kpis`: the maximum of the client-reported sum
and the number of distinct normalized identifiers appearing in the union of
the attribute table, the activity log and the event log. -/
def claimed_device_count (db : KpiDb) : Int :=
  let ids := db.biorreactores.filterMap (fun b => b.numero_bim)
      ++ db.registros.filterMap (fun r => r.BIM)
      ++ db.fechas_BIMs.filterMap (fun e => e.numero_bim)
  let normIds := ((ids.map (fun i => norm_bim (some i))).dedup).filter (fun i => !i.isEmpty)
  max ((db.clientes.map (fun c => c.BIMs_instalados.getD 0)).sum) (normIds.length : Int)

/-- Failure flags with every query succeeding. -/
def kpiNoFail : KpiFailures := ⟨false, false, false, false, false, false⟩

/-- Failure flags where only the diagnostics count query fails. -/
def kpiFailDiag : KpiFailures := ⟨false, false, false, true, false, false⟩

/-- Concrete database refuting claim C3: one client reporting 0 installed
devices, an empty attribute table, and one activity record for device `7`. -/
def kpiDb0 : KpiDb :=
  { clientes := [⟨some 0⟩], biorreactores := [], registros := [⟨some "7".toList⟩],
    diagnosticos := [], fechas_BIMs := [] }

/-- Concrete database refuting claim C4: every table empty, so the sum query
returns a SQL `NULL` cell. -/
def kpiDbNoClients : KpiDb :=
  { clientes := [], biorreactores := [], registros := [], diagnosticos := [],
    fechas_BIMs := [] }

/- ### Route builder `build_route_nearest_neighbor` (src/app.py, lines 112-142) -/

/-- One stop handed to the route builder: the columns of the `stops` frame. -/
structure RoutePoint where
  cliente : List Char
  numero_bim : List Char
  latitud : Rat
  longitud : Rat
deriving DecidableEq

/-- Selection of the remaining row nearest to the current position, mirroring
`remaining.apply(haversine...).idxmin()` (pandas `idxmin` returns the first
index attaining the minimum).  Returns the chosen row and the remaining rows
in their original order.  The distance function abstracts `haversine_km`,
whose floating-point trigonometry is not embedded. -/
def pickNearest (dist : Rat → Rat → Rat → Rat → Rat) (curLat curLon : Rat) :
    List RoutePoint → Option (RoutePoint × List RoutePoint)
  | [] => none
  | p :: rest =>
    match pickNearest dist curLat curLon rest with
    | none => some (p, [])
    | some (q, rest') =>
      if dist curLat curLon p.latitud p.longitud ≤ dist curLat curLon q.latitud q.longitud
      then some (p, rest)
      else some (q, p :: rest')

/-- Body of the `while not remaining.empty` loop of the route builder.  The
fuel argument equals the number of remaining rows, which is exactly the number
of iterations the loop performs. -/
def routeLoop (dist : Rat → Rat → Rat → Rat → Rat) :
    Nat → RoutePoint → List RoutePoint → List RoutePoint
  | 0, _, _ => []
  | Nat.succ fuel, cur, remaining =>
    match pickNearest dist cur.latitud cur.longitud remaining with
    | none => []
    | some (q, rest) => q :: routeLoop dist fuel q rest

/-- Embedding of `build_route_nearest_neighbor` (src/app.py): an empty or
one-row frame is returned unchanged; otherwise the route starts at the first
row and repeatedly appends the nearest not-yet-visited row. -/
def build_route_nearest_neighbor (dist : Rat → Rat → Rat → Rat → Rat)
    (pts : List RoutePoint) : List RoutePoint :=
  match pts with
  | [] => []
  | [p] => [p]
  | p :: rest => p :: routeLoop dist rest.length p rest

/-- Greedy-chain property of a route: every point is followed by a nearest
point among all later ones. -/
def GreedyFrom (dist : Rat → Rat → Rat → Rat → Rat) : List RoutePoint → Prop
  | p :: q :: rest =>
    (∀ x ∈ q :: rest,
      dist p.latitud p.longitud q.latitud q.longitud ≤
        dist p.latitud p.longitud x.latitud x.longitud)
    ∧ GreedyFrom dist (q :: rest)
  | _ => True

/- ### Coordinate parser `_to_float_coord` (src/app.py, lines 86-97) -/

/-- Greedy body of the coordinate regex after an optional sign: one maximal
digit run, then — only if a separator immediately followed by a digit comes
next — the separator and a second maximal digit run.  Returns the matched
characters and the rest of the input. -/
def numBody (l : List Char) : List Char × List Char :=
  match l.dropWhile isDigitChar with
  | s :: d :: rest =>
    if isSepChar s ∧ isDigitChar d then
      (l.takeWhile isDigitChar ++ s :: (d :: rest).takeWhile isDigitChar,
       (d :: rest).dropWhile isDigitChar)
    else (l.takeWhile isDigitChar, s :: d :: rest)
  | r => (l.takeWhile isDigitChar, r)

/-- Attempt to match of the regex `[-+]?\d+(?:[.,]\d+)?` at the head of the
input: an optional sign must be immediately followed by a digit.  Returns the
matched token and the remaining characters. -/
def matchCoordAt (l : List Char) : Option (List Char × List Char) :=
  match l with
  | [] => none
  | c :: rest =>
    if c = '-' ∨ c = '+' then
      match rest with
      | d :: _ => if isDigitChar d then some (c :: (numBody rest).1, (numBody rest).2) else none
      | [] => none
    else if isDigitChar c then some (numBody (c :: rest))
    else none

/-- Embedding of `re.search` for the coordinate regex: the leftmost position
where the pattern matches wins.  Returns the characters before the match, the
matched token, and the characters after it. -/
def searchCoord : List Char → Option (List Char × List Char × List Char)
  | [] => none
  | c :: rest =>
    match matchCoordAt (c :: rest) with
    | some (t, r) => some ([], t, r)
    | none =>
      match searchCoord rest with
      | some (pre, t, r) => some (c :: pre, t, r)
      | none => none

/-- Value of a digit run, most significant digit first. -/
def digitsVal (ds : List Char) : Nat :=
  ds.foldl (fun n c => 10 * n + (c.toNat - 48)) 0

/-- Exact value of `float(token.replace(",", "."))` on a token matched by the
coordinate regex, with rationals standing in for IEEE floats: the digits on
both sides of the separator over ten to the number of fractional digits. -/
def tokenVal (t : List Char) : Rat :=
  match t with
  | '-' :: u => -(tokenVal u)
  | '+' :: u => tokenVal u
  | u =>
    let ds := u.takeWhile isDigitChar
    let fs := (u.dropWhile isDigitChar).drop 1
    mkRat (Int.ofNat (digitsVal (ds ++ fs))) (10 ^ fs.length)

/-- Embedding of `_to_float_coord` (src/app.py): `None` for a pandas-missing
value, otherwise strip the string form, search the coordinate regex, and
return the value of the first match (the `try/except` around `float` can
never fire on a matched token, where the conversion always succeeds). -/
def to_float_coord (val : Option (List Char)) : Option Rat :=
  match val with
  | none => none
  | some s =>
    match searchCoord (pyStrip s) with
    | none => none
    | some (_, t, _) => some (tokenVal t)

/-- Declarative reading of the coordinate regex `[-+]?\d+(?:[.,]\d+)?`: a
token is an optional sign, a non-empty digit run, and optionally a separator
followed by a non-empty digit run. -/
def IsCoordToken (t : List Char) : Prop :=
  ∃ sgn ds tail, t = sgn ++ ds ++ tail ∧
    (sgn = [] ∨ sgn = ['-'] ∨ sgn = ['+']) ∧
    ds ≠ [] ∧ (∀ c ∈ ds, isDigitChar c = true) ∧
    (tail = [] ∨ ∃ sep fs, tail = sep :: fs ∧ (sep = ',' ∨ sep = '.') ∧
      fs ≠ [] ∧ ∀ c ∈ fs, isDigitChar c = true)

/-- Positions at which the coordinate regex can start a match: a digit, or a
sign immediately followed by a digit. -/
def StartsCoordMatch (l : List Char) : Prop :=
  (∃ d r, l = d :: r ∧ isDigitChar d = true) ∨
  (∃ c d r, l = c :: d :: r ∧ (c = '-' ∨ c = '+') ∧ isDigitChar d = true)

/-- Greedy maximality of a matched token against the characters after it: no
digit follows directly, and a fractional part can only be missing when no
separator-digit pair follows directly. -/
def CannotExtendCoord (t post : List Char) : Prop :=
  (∀ d r, post = d :: r → isDigitChar d = false) ∧
  ((∃ c ∈ t, isSepChar c = true) ∨
    ∀ sep d r, post = sep :: d :: r → ¬(isSepChar sep = true ∧ isDigitChar d = true))

/- ### Alert rules `compute_alerts` (src/app_bim_dashboard.py, lines 164-182) -/

/-- One sensor row handed to `compute_alerts`; a missing (`NaN`) measurement
is `none`.  Measurements are exact rationals standing in for floats. -/
structure SensorRow where
  ph : Option Rat
  temperatura_c : Option Rat
  oxigeno_mg_l : Option Rat
  lux : Option Rat
  turbidez_porcentaje : Option Rat
deriving DecidableEq

/-- Alerts raised by `compute_alerts`, tagged by rule and carrying the
offending measurement (the f-string formatting of the message is not
modelled). -/
inductive Alert where
  | ph (v : Rat)
  | temp (v : Rat)
  | o2 (v : Rat)
  | lux (v : Rat)
  | turb (v : Rat)
deriving DecidableEq

/-- One `if pd.notna(x) and (condition): alerts.append(...)` block of
`compute_alerts`: a present measurement satisfying the alert condition
contributes one alert, anything else contributes none. -/
def alertIf (o : Option Rat) (p : Rat → Prop) [DecidablePred p] (mk : Rat → Alert) : List Alert :=
  match o with
  | some v => if p v then [mk v] else []
  | none => []

/-- Embedding of `compute_alerts` (src/app_bim_dashboard.py): each present
measurement outside its fixed band appends one alert, in source order. -/
def compute_alerts (row : SensorRow) : List Alert :=
  alertIf row.ph (fun v => v < 6.5 ∨ 9.5 < v) Alert.ph
  ++ alertIf row.temperatura_c (fun v => v < 10 ∨ 35 < v) Alert.temp
  ++ alertIf row.oxigeno_mg_l (fun v => v < 3) Alert.o2
  ++ alertIf row.lux (fun v => v < 200) Alert.lux
  ++ alertIf row.turbidez_porcentaje (fun v => v < 5 ∨ 95 < v) Alert.turb

/- ### Supporting lemmas: characters -/

/-- Code point of `Char.ofNat` at a valid scalar value. -/
theorem toNat_ofNat_of_valid {n : Nat} (h : n.isValidChar) : (Char.ofNat n).toNat = n := by
  simp only [Char.ofNat, h, dite_true, Char.ofNatAux, Char.toNat, UInt32.toNat,
    BitVec.toNat_ofNatLt]

/-- Code point produced by `lowerChar`. -/
theorem lowerChar_toNat (c : Char) :
    (lowerChar c).toNat = if 65 ≤ c.toNat ∧ c.toNat ≤ 90 then c.toNat + 32 else c.toNat := by
  unfold lowerChar
  split
  · next h =>
    have hv : (c.toNat + 32).isValidChar := by
      left
      have := h.2
      omega
    rw [toNat_ofNat_of_valid hv]
  · rfl

/-- Lower-casing a character twice is the same as once. -/
theorem lowerChar_idem (c : Char) : lowerChar (lowerChar c) = lowerChar c := by
  by_cases hc : 65 ≤ c.toNat ∧ c.toNat ≤ 90
  · have h1 : (lowerChar c).toNat = c.toNat + 32 := by rw [lowerChar_toNat, if_pos hc]
    have h2 : ¬(65 ≤ (lowerChar c).toNat ∧ (lowerChar c).toNat ≤ 90) := by
      rw [h1]
      omega
    show (if 65 ≤ (lowerChar c).toNat ∧ (lowerChar c).toNat ≤ 90 then
        Char.ofNat ((lowerChar c).toNat + 32) else lowerChar c) = lowerChar c
    rw [if_neg h2]
  · have h1 : lowerChar c = c := by
      unfold lowerChar
      rw [if_neg hc]
    rw [h1, h1]

/-- Lower-casing does not change whether a character is whitespace. -/
theorem isSpaceChar_lowerChar (c : Char) : isSpaceChar (lowerChar c) = isSpaceChar c := by
  unfold isSpaceChar
  rw [lowerChar_toNat]
  by_cases h : 65 ≤ c.toNat ∧ c.toNat ≤ 90
  · rw [if_pos h, decide_eq_decide]
    omega
  · rw [if_neg h]

/- ### Supporting lemmas: dropWhile and the strip functions -/

/-- Head of a `dropWhile` result never satisfies the predicate. -/
theorem head_dropWhile_false {α : Type} (p : α → Bool) (l : List α) (c : α)
    (h : (l.dropWhile p).head? = some c) : p c = false := by
  have hh := List.head?_dropWhile_not p l
  rw [h] at hh
  exact hh

/-- A list whose head does not satisfy the predicate is fixed by `dropWhile`. -/
theorem dropWhile_eq_self_of_head {α : Type} (p : α → Bool) (l : List α)
    (h : ∀ c, l.head? = some c → p c = false) : l.dropWhile p = l := by
  cases l with
  | nil => rfl
  | cons a t =>
    rw [List.dropWhile_cons_of_neg]
    simp [h a rfl]

/-- Applying `dropWhile` twice is the same as once. -/
theorem dropWhile_idem {α : Type} (p : α → Bool) (l : List α) :
    (l.dropWhile p).dropWhile p = l.dropWhile p :=
  dropWhile_eq_self_of_head p _ (fun c hc => head_dropWhile_false p l c hc)

/-- A list whose last element is not whitespace is fixed by `stripRight`. -/
theorem stripRight_eq_self_of_getLast (l : List Char)
    (h : ∀ c, l.getLast? = some c → isSpaceChar c = false) : stripRight l = l := by
  unfold stripRight
  have he : l.reverse.dropWhile isSpaceChar = l.reverse := by
    apply dropWhile_eq_self_of_head
    intro c hc
    exact h c (by rwa [List.head?_reverse] at hc)
  rw [he, List.reverse_reverse]

/-- The last element of a `stripRight` result is never whitespace. -/
theorem getLast_stripRight_false (l : List Char) (c : Char)
    (h : (stripRight l).getLast? = some c) : isSpaceChar c = false := by
  unfold stripRight at h
  rw [List.getLast?_reverse] at h
  exact head_dropWhile_false _ _ _ h

/-- A suffix of a list fixed by `stripRight` is itself fixed by `stripRight`. -/
theorem stripRight_eq_self_of_suffix {m l : List Char} (hs : m <:+ l)
    (hl : stripRight l = l) : stripRight m = m := by
  apply stripRight_eq_self_of_getLast
  intro c hc
  obtain ⟨t, rfl⟩ := hs
  apply getLast_stripRight_false (t ++ m) c
  rw [hl, List.getLast?_append, hc]
  rfl

/-- Prepending a non-whitespace character commutes with `stripRight`. -/
theorem stripRight_cons (c : Char) (l : List Char) (h : isSpaceChar c = false) :
    stripRight (c :: l) = c :: stripRight l := by
  unfold stripRight
  rw [List.reverse_cons, List.dropWhile_append]
  by_cases he : (l.reverse.dropWhile isSpaceChar).isEmpty
  · rw [if_pos he, List.dropWhile_cons_of_neg (by simp [h])]
    have hnil : l.reverse.dropWhile isSpaceChar = [] := by
      rwa [← List.isEmpty_iff]
    rw [hnil]
    rfl
  · rw [if_neg he, List.reverse_append]
    rfl

/-- The strip of a strip on the left. -/
theorem stripLeft_pyStrip (l : List Char) : stripLeft (pyStrip l) = pyStrip l :=
  dropWhile_idem _ _

/-- The strip of a strip on the right. -/
theorem stripRight_pyStrip (l : List Char) : stripRight (pyStrip l) = pyStrip l := by
  apply stripRight_eq_self_of_suffix (List.dropWhile_suffix isSpaceChar)
  apply stripRight_eq_self_of_getLast
  exact getLast_stripRight_false l

/-- Stripping is idempotent. -/
theorem pyStrip_pyStrip (l : List Char) : pyStrip (pyStrip l) = pyStrip l := by
  have h : pyStrip (pyStrip l) = stripLeft (stripRight (pyStrip l)) := rfl
  rw [h, stripRight_pyStrip, stripLeft_pyStrip]

/- ### Supporting lemmas: the normalizer -/

/-- The `bim`-prefix removal keeps a left-stripped string left-stripped. -/
theorem stripLeft_dropBim (u : List Char) (h : stripLeft u = u) :
    stripLeft (dropBim u) = dropBim u := by
  unfold dropBim
  rw [show u.dropWhile isSpaceChar = u from h]
  split
  · exact dropWhile_idem _ _
  · exact h

/-- The `bim`-prefix removal keeps a fully stripped string right-stripped. -/
theorem stripRight_dropBim (u : List Char) (hL : stripLeft u = u) (hR : stripRight u = u) :
    stripRight (dropBim u) = dropBim u := by
  unfold dropBim
  rw [show u.dropWhile isSpaceChar = u from hL]
  split
  · exact stripRight_eq_self_of_suffix
      ((List.dropWhile_suffix isSpaceChar).trans ⟨['b', 'i', 'm'], rfl⟩) hR
  · exact hR

/-- Lower-casing keeps a left-stripped string left-stripped. -/
theorem stripLeft_map_lower (u : List Char) (h : stripLeft u = u) :
    stripLeft (u.map lowerChar) = u.map lowerChar := by
  unfold stripLeft at h ⊢
  rw [List.dropWhile_map, show (isSpaceChar ∘ lowerChar) = isSpaceChar from funext isSpaceChar_lowerChar, h]

/-- Lower-casing keeps a right-stripped string right-stripped. -/
theorem stripRight_map_lower (u : List Char) (h : stripRight u = u) :
    stripRight (u.map lowerChar) = u.map lowerChar := by
  unfold stripRight at h ⊢
  rw [← List.map_reverse, List.dropWhile_map,
    show (isSpaceChar ∘ lowerChar) = isSpaceChar from funext isSpaceChar_lowerChar,
    ← List.map_reverse, h]

/-- Lower-casing a string twice is the same as once. -/
theorem map_lower_idem (u : List Char) : (u.map lowerChar).map lowerChar = u.map lowerChar := by
  rw [List.map_map]
  congr 1
  funext c
  exact lowerChar_idem c

/-- The placeholder-blanking step is idempotent. -/
theorem tokenBlank_idem (s : List Char) : tokenBlank (tokenBlank s) = tokenBlank s := by
  unfold tokenBlank
  split
  · rw [if_neg (by decide)]
  · rfl

/-- Placeholder blanking keeps a left-stripped string left-stripped. -/
theorem stripLeft_tokenBlank (s : List Char) (h : stripLeft s = s) :
    stripLeft (tokenBlank s) = tokenBlank s := by
  unfold tokenBlank
  split
  · rfl
  · exact h

/-- Placeholder blanking keeps a right-stripped string right-stripped. -/
theorem stripRight_tokenBlank (s : List Char) (h : stripRight s = s) :
    stripRight (tokenBlank s) = tokenBlank s := by
  unfold tokenBlank
  split
  · rfl
  · exact h

/-- Normalized identifiers carry no leading whitespace. -/
theorem stripLeft_norm_bim (x : Option (List Char)) :
    stripLeft (norm_bim x) = norm_bim x := by
  have h1 : stripLeft (pyStrip (x.getD [])) = pyStrip (x.getD []) := stripLeft_pyStrip _
  have h2 := stripLeft_dropBim _ h1
  have h3 := stripLeft_map_lower _ h2
  exact stripLeft_tokenBlank _ h3

/-- Normalized identifiers carry no trailing whitespace. -/
theorem stripRight_norm_bim (x : Option (List Char)) :
    stripRight (norm_bim x) = norm_bim x := by
  have h1L : stripLeft (pyStrip (x.getD [])) = pyStrip (x.getD []) := stripLeft_pyStrip _
  have h1R : stripRight (pyStrip (x.getD [])) = pyStrip (x.getD []) := stripRight_pyStrip _
  have h2L := stripLeft_dropBim _ h1L
  have h2R := stripRight_dropBim _ h1L h1R
  have h3 := stripRight_map_lower _ h2R
  exact stripRight_tokenBlank _ h3

/-- Normalized identifiers are invariant under lower-casing. -/
theorem map_lower_norm_bim (x : Option (List Char)) :
    (norm_bim x).map lowerChar = norm_bim x := by
  unfold norm_bim tokenBlank
  split
  · rfl
  · exact map_lower_idem _

/-- Normalized identifiers are invariant under placeholder blanking. -/
theorem tokenBlank_norm_bim (x : Option (List Char)) :
    tokenBlank (norm_bim x) = norm_bim x :=
  tokenBlank_idem _

/-- Normalized identifiers that do not start with `bim` are fixed points of the
prefix-removal step. -/
theorem dropBim_norm_bim (x : Option (List Char))
    (h : (norm_bim x).take 3 ≠ ['b', 'i', 'm']) : dropBim (norm_bim x) = norm_bim x := by
  unfold dropBim
  rw [show (norm_bim x).dropWhile isSpaceChar = norm_bim x from stripLeft_norm_bim x]
  split
  · next rest heq => exact absurd (by rw [heq]; rfl) h
  · rfl

/- ### Claim C1 -/

/-- Claim C1, counterexample: the identifier normalizer leaves `"BIM 007"` as
`"bim 007"` instead of the claimed `"007"` — the regex `^\s*bim\s*` is
case-sensitive and is applied before `str.lower`. -/
theorem claim_C1_counterexample :
    norm_bim (some "BIM 007".toList) = "bim 007".toList ∧
      "bim 007".toList ≠ "007".toList := by
  decide

/-- Claim C1, amended: after stripping surrounding whitespace the normalizer
removes a single leading case-SENSITIVE lowercase `bim` prefix (plus the
whitespace following it) and only then lower-cases; so prefixing `bim` to a
string whose stripped form does not itself start with `bim` does not change
the normalized result, `normalize "bim 007" = "007"`, while
`normalize "BIM 007" = "bim 007"` and `normalize "  Bim12 " = "bim12"`. -/
theorem claim_C1 :
    (∀ r : List Char, (pyStrip r).take 3 ≠ ['b', 'i', 'm'] →
      norm_bim (some ('b' :: 'i' :: 'm' :: r)) = norm_bim (some r))
    ∧ norm_bim (some "bim 007".toList) = "007".toList
    ∧ norm_bim (some "BIM 007".toList) = "bim 007".toList
    ∧ norm_bim (some "  Bim12 ".toList) = "bim12".toList := by
  refine ⟨?_, by decide, by decide, by decide⟩
  intro r h
  have e1 : pyStrip ('b' :: 'i' :: 'm' :: r) = 'b' :: 'i' :: 'm' :: stripRight r := by
    have hb : stripRight ('b' :: 'i' :: 'm' :: r) = 'b' :: 'i' :: 'm' :: stripRight r := by
      rw [stripRight_cons _ _ (by decide), stripRight_cons _ _ (by decide),
        stripRight_cons _ _ (by decide)]
    have hp : pyStrip ('b' :: 'i' :: 'm' :: r) = stripLeft (stripRight ('b' :: 'i' :: 'm' :: r)) := rfl
    rw [hp, hb]
    rfl
  have eL : norm_bim (some ('b' :: 'i' :: 'm' :: r)) =
      tokenBlank ((dropBim (pyStrip ('b' :: 'i' :: 'm' :: r))).map lowerChar) := rfl
  have eR : norm_bim (some r) = tokenBlank ((dropBim (pyStrip r)).map lowerChar) := rfl
  have e3 : dropBim (pyStrip r) = pyStrip r := by
    unfold dropBim
    rw [show (pyStrip r).dropWhile isSpaceChar = pyStrip r from stripLeft_pyStrip r]
    split
    · next rest heq => exact absurd (by rw [heq]; rfl) h
    · rfl
  rw [eL, eR, e1, e3]
  rfl

/-- Claim C1, witness: the amended general clause applied to the concrete
remainder `"x7"`. -/
theorem claim_C1_witness :
    norm_bim (some ('b' :: 'i' :: 'm' :: "x7".toList)) = norm_bim (some "x7".toList) :=
  claim_C1.1 "x7".toList (by decide)

/- ### Claim C2 -/

/-- Claim C2, counterexample: the normalizer is not idempotent — normalizing
`"BIM 7"` yields `"bim 7"`, and normalizing that again yields `"7"`. -/
theorem claim_C2_counterexample :
    norm_bim (some (norm_bim (some "BIM 7".toList))) ≠ norm_bim (some "BIM 7".toList) := by
  decide

/-- Claim C2, amended: the normalizer is idempotent on every input whose
normalized form does not itself start with the literal `bim` (lower-casing or
removing one `bim` prefix can expose a new lowercase `bim` prefix, which a
second pass would remove). -/
theorem claim_C2 (x : Option (List Char)) (h : (norm_bim x).take 3 ≠ ['b', 'i', 'm']) :
    norm_bim (some (norm_bim x)) = norm_bim x := by
  have expand : norm_bim (some (norm_bim x)) =
      tokenBlank ((dropBim (pyStrip (norm_bim x))).map lowerChar) := rfl
  have h1 : pyStrip (norm_bim x) = norm_bim x := by
    have hp : pyStrip (norm_bim x) = stripLeft (stripRight (norm_bim x)) := rfl
    rw [hp, stripRight_norm_bim, stripLeft_norm_bim]
  rw [expand, h1, dropBim_norm_bim x h, map_lower_norm_bim, tokenBlank_norm_bim]

/-- Claim C2, witness: idempotence at the concrete input `"x7"`. -/
theorem claim_C2_witness :
    norm_bim (some (norm_bim (some "x7".toList))) = norm_bim (some "x7".toList) :=
  claim_C2 (some "x7".toList) (by decide)

/- ### Supporting lemmas: catalog builder -/

/-- The lookup chain of `resolveClient`, written as the case analysis of the
spec: user lookup, then client lookup, sentinel on any failure. -/
theorem resolveClient_eq (ula : List Char → Option Nat) (uc : Nat → Option (List Char))
    (i : List Char) :
    resolveClient ula uc i =
      (match ula i with
       | some u => (match uc u with
                    | some n => n
                    | none => "(none)".toList)
       | none => "(none)".toList) := by
  unfold resolveClient
  cases ula i with
  | none => rfl
  | some u =>
    show (uc u).getD "(none)".toList =
      (match uc u with
       | some n => n
       | none => "(none)".toList)
    cases uc u with
    | none => rfl
    | some n => rfl

/-- Finalized catalogs contain no duplicate row and no empty identifier. -/
theorem catalogFinalize_props (rows : List CatRow) :
    (catalogFinalize rows).Nodup ∧ ∀ r ∈ catalogFinalize rows, r.numero_bim ≠ [] := by
  constructor
  · exact List.nodup_dedup _
  · intro r hr hnil
    have hf : r ∈ rows.filter (fun r => !r.numero_bim.isEmpty) := List.mem_dedup.mp hr
    have hp := List.of_mem_filter hf
    rw [hnil] at hp
    simp at hp

/- ### Claim C5 -/

/-- Claim C5 (spec-modelled), confirmed: with an empty attribute-row source
the catalog is exactly one row per identifier in the normalized, de-duplicated
union of the activity and event identifiers (empty identifiers dropped), the
client resolved through the latest-activity user chain with sentinel `(none)`
on any failed lookup; an empty union gives an empty catalog, and the function
is total, so no exception arises. -/
theorem claim_C5 (act evt : List (Option (List Char))) (ula : List Char → Option Nat)
    (uc : Nat → Option (List Char)) :
    buildCatalog [] act evt ula uc =
      ((((act ++ evt).map norm_bim).dedup).filter (fun i => !i.isEmpty)).map
        (fun i => { cliente := match ula i with
                    | some u => (match uc u with
                                 | some n => n
                                 | none => "(none)".toList)
                    | none => "(none)".toList,
                    numero_bim := i }) := by
  have expand : buildCatalog [] act evt ula uc =
      catalogFinalize ((((act ++ evt).map norm_bim).dedup).map
        (fun i => { cliente := resolveClient ula uc i, numero_bim := i })) := rfl
  have hres : (fun i => ({ cliente := resolveClient ula uc i, numero_bim := i } : CatRow)) =
      (fun i => ({ cliente := match ula i with
                   | some u => (match uc u with
                                | some n => n
                                | none => "(none)".toList)
                   | none => "(none)".toList,
                   numero_bim := i } : CatRow)) := by
    funext i
    rw [resolveClient_eq]
  rw [expand, hres]
  unfold catalogFinalize
  rw [List.filter_map]
  rw [List.dedup_eq_self.mpr]
  · rfl
  · apply List.Nodup.map_on
    · intro x hx y hy hxy
      have hnum := congrArg CatRow.numero_bim hxy
      simpa using hnum
    · exact ((List.nodup_dedup _).filter _)

/- ### Claim C6 -/

/-- Claim C6 (spec-modelled), confirmed: every catalog — authoritative path or
fallback path — has at most one row per (client, identifier) pair and no row
with an empty identifier. -/
theorem claim_C6 (attrs : List AttrRow) (act evt : List (Option (List Char)))
    (ula : List Char → Option Nat) (uc : Nat → Option (List Char)) :
    List.Pairwise (fun r1 r2 => ¬(r1.cliente = r2.cliente ∧ r1.numero_bim = r2.numero_bim))
      (buildCatalog attrs act evt ula uc)
    ∧ ∀ r ∈ buildCatalog attrs act evt ula uc, r.numero_bim ≠ [] := by
  have key : ∀ rows : List CatRow,
      List.Pairwise (fun r1 r2 => ¬(r1.cliente = r2.cliente ∧ r1.numero_bim = r2.numero_bim))
        (catalogFinalize rows)
      ∧ ∀ r ∈ catalogFinalize rows, r.numero_bim ≠ [] := by
    intro rows
    obtain ⟨hnd, hmem⟩ := catalogFinalize_props rows
    refine ⟨hnd.imp ?_, hmem⟩
    intro a b hne hand
    apply hne
    obtain ⟨h1, h2⟩ := hand
    cases a
    cases b
    cases h1
    cases h2
    rfl
  unfold buildCatalog
  split
  · exact key _
  · exact key _

/-- Claim C6, witness: the second conjunct at the concrete C7 scenario and its
first catalog row. -/
theorem claim_C6_witness :
    (⟨"agro".toList, "bim 1".toList⟩ : CatRow).numero_bim ≠ [] :=
  (claim_C6 [] c7Act [] c7Ula c7Uc).2 ⟨"agro".toList, "bim 1".toList⟩ (by decide)

/- ### Claim C7 -/

/-- Claim C7, counterexample: in the end-to-end scenario (empty attribute
table, activity identifiers `"BIM 1"`, `"bim1"`, `" 1 "` for one user, empty
event log) the catalog has two rows, with identifiers `"bim 1"` and `"1"` —
not the single claimed row `"1"`, because the normalizer treats `"BIM 1"`
case-sensitively. -/
theorem claim_C7_counterexample :
    (buildCatalog [] c7Act [] c7Ula c7Uc).length = 2 ∧
      (buildCatalog [] c7Act [] c7Ula c7Uc).map CatRow.numero_bim =
        ["bim 1".toList, "1".toList] := by
  decide

/-- Claim C7, amended: the scenario's catalog consists of exactly the two rows
(`agro`, `"bim 1"`) and (`agro`, `"1"`). -/
theorem claim_C7 :
    buildCatalog [] c7Act [] c7Ula c7Uc =
      [⟨"agro".toList, "bim 1".toList⟩, ⟨"agro".toList, "1".toList⟩] := by
  decide

/- ### Supporting lemmas: KPI aggregator -/

/-- Value extracted from a count query: zero on failure, the row count
otherwise. -/
theorem sqlCount_getD {α : Type} (fail : Bool) (rows : List α) :
    (sqlCount fail rows).getD 0 = if fail then 0 else rows.length := by
  cases fail <;> rfl

/-- The `int(...)` conversion of the sum cell succeeds whenever the client
table is non-empty or the sum query itself failed, and yields zero exactly on
failure. -/
theorem intOfSumCell_ok (fl : Bool) (cs : List ClientRow) (h : cs ≠ [] ∨ fl = true) :
    intOfSumCell (sqlSumInstalled fl cs) =
      Except.ok (if fl then 0 else (cs.map (fun c => c.BIMs_instalados.getD 0)).sum) := by
  cases fl with
  | true => rfl
  | false =>
    rcases h with h | h
    · cases cs with
      | nil => exact absurd rfl h
      | cons a t => rfl
    · exact absurd h (by simp)

/-- Distinct-count computed from the bio query: zero on failure, the number of
distinct raw non-null identifiers otherwise. -/
theorem distinct_bims_eq (fl : Bool) (bs : List BioRow) :
    (if (sqlBimList fl bs).isEmpty then 0 else (sqlBimList fl bs).dedup.length) =
      if fl then 0 else (bs.filterMap (fun b => b.numero_bim)).toFinset.card := by
  cases fl with
  | true => rfl
  | false =>
    rw [List.card_toFinset]
    show (if (bs.filterMap (fun b => b.numero_bim)).isEmpty then 0
      else (bs.filterMap (fun b => b.numero_bim)).dedup.length) = _
    by_cases he : (bs.filterMap (fun b => b.numero_bim)).isEmpty
    · rw [if_pos he]
      have hnil : bs.filterMap (fun b => b.numero_bim) = [] := by
        rwa [← List.isEmpty_iff]
      rw [hnil]
      rfl
    · rw [if_neg he]
      rfl

/-- Closed form of a successful `get_kpis` run: provided the client table is
non-empty or the client-sum query failed, the run returns five counts, each
zero when its own query failed and computed from its table otherwise. -/
theorem get_kpis_ok (f : KpiFailures) (db : KpiDb) (h : db.clientes ≠ [] ∨ f.fSuma = true) :
    get_kpis f db = Except.ok
      ((if f.fClientes then 0 else db.clientes.length),
       max (if f.fSuma then 0 else (db.clientes.map (fun c => c.BIMs_instalados.getD 0)).sum)
         (((if f.fBio then 0
            else (db.biorreactores.filterMap (fun b => b.numero_bim)).toFinset.card : Nat) : Int)),
       (if f.fDiag then 0 else db.diagnosticos.length),
       (if f.fRegs then 0 else db.registros.length),
       (if f.fEventos then 0 else db.fechas_BIMs.length)) := by
  have hsum := intOfSumCell_ok f.fSuma db.clientes h
  simp only [get_kpis]
  rw [hsum]
  rw [sqlCount_getD, sqlCount_getD, sqlCount_getD, sqlCount_getD, distinct_bims_eq]

/- ### Claim C3 -/

/-- Claim C3, counterexample: with one client reporting zero installed
devices, an empty attribute table and one activity record for device `7`, the
aggregator displays a device count of 0, while the claimed formula — which
unions the activity and event logs into the distinct-identifier count — gives
1: `get_kpis` counts distinct raw identifiers of the attribute table only. -/
theorem claim_C3_counterexample :
    get_kpis kpiNoFail kpiDb0 = Except.ok (1, 0, 0, 1, 0) ∧
      claimed_device_count kpiDb0 = 1 ∧ (0 : Int) ≠ claimed_device_count kpiDb0 := by
  refine ⟨rfl, by decide, by decide⟩

/-- Claim C3, amended: when every query succeeds and the client table is
non-empty, the displayed device count is `max(a, b)` where `a` is the
coalesced sum of the self-reported installed counts and `b` is the number of
distinct RAW non-null `numero_bim` values of the attribute table alone — the
activity and event logs do not contribute and no normalization is applied. -/
theorem claim_C3 (db : KpiDb) (h : db.clientes ≠ []) :
    get_kpis kpiNoFail db = Except.ok
      (db.clientes.length,
       max ((db.clientes.map (fun c => c.BIMs_instalados.getD 0)).sum)
         (((db.biorreactores.filterMap (fun b => b.numero_bim)).toFinset.card : Int)),
       db.diagnosticos.length,
       db.registros.length,
       db.fechas_BIMs.length) := by
  have hk := get_kpis_ok kpiNoFail db (Or.inl h)
  simpa [kpiNoFail] using hk

/-- Claim C3, witness: the amended statement evaluated on the concrete
database of the counterexample. -/
theorem claim_C3_witness :
    get_kpis kpiNoFail kpiDb0 = Except.ok
      (kpiDb0.clientes.length,
       max ((kpiDb0.clientes.map (fun c => c.BIMs_instalados.getD 0)).sum)
         (((kpiDb0.biorreactores.filterMap (fun b => b.numero_bim)).toFinset.card : Int)),
       kpiDb0.diagnosticos.length,
       kpiDb0.registros.length,
       kpiDb0.fechas_BIMs.length) :=
  claim_C3 kpiDb0 (by decide)

/- ### Claim C4 -/

/-- Claim C4, counterexample: when the diagnostics count query fails but every
table is empty, the successful client-sum query returns a SQL `NULL` cell (sum
over no rows), the unprotected `int(...)` conversion raises, and the whole
aggregation aborts — contradicting the claim that a failing metric query
leaves the other four counts computed with no escaping exception. -/
theorem claim_C4_counterexample :
    kpiFailDiag.fDiag = true ∧ get_kpis kpiFailDiag kpiDbNoClients = Except.error () :=
  ⟨rfl, rfl⟩

/-- Claim C4, amended: provided the client table is non-empty or the
client-sum query is itself among the failing ones, any failing metric query
yields zero for that metric while the other counts are still computed, and no
exception escapes the aggregator. -/
theorem claim_C4 (f : KpiFailures) (db : KpiDb) (h : db.clientes ≠ [] ∨ f.fSuma = true) :
    get_kpis f db = Except.ok
      ((if f.fClientes then 0 else db.clientes.length),
       max (if f.fSuma then 0 else (db.clientes.map (fun c => c.BIMs_instalados.getD 0)).sum)
         (((if f.fBio then 0
            else (db.biorreactores.filterMap (fun b => b.numero_bim)).toFinset.card : Nat) : Int)),
       (if f.fDiag then 0 else db.diagnosticos.length),
       (if f.fRegs then 0 else db.registros.length),
       (if f.fEventos then 0 else db.fechas_BIMs.length)) :=
  get_kpis_ok f db h

/-- Claim C4, witness: only the diagnostics query fails on a database with a
client, one attribute row and two diagnostics; the diagnostics count degrades
to zero and every other metric is still computed. -/
theorem claim_C4_witness :
    get_kpis kpiFailDiag
        { clientes := [⟨some 2⟩], biorreactores := [⟨some "a".toList⟩], registros := [],
          diagnosticos := [(), ()], fechas_BIMs := [] } =
      Except.ok (1, max 2 1, 0, 0, 0) := by
  have hk := claim_C4 kpiFailDiag
    { clientes := [⟨some 2⟩], biorreactores := [⟨some "a".toList⟩], registros := [],
      diagnosticos := [(), ()], fechas_BIMs := [] } (Or.inl (by decide))
  simpa [kpiFailDiag] using hk

/- ### Supporting lemmas: route builder -/

/-- The selection step always succeeds on a non-empty remainder. -/
theorem pickNearest_cons_isSome (dist : Rat → Rat → Rat → Rat → Rat) (a b : Rat)
    (p : RoutePoint) (rest : List RoutePoint) :
    (pickNearest dist a b (p :: rest)).isSome := by
  simp only [pickNearest]
  cases pickNearest dist a b rest with
  | none => rfl
  | some qr =>
    obtain ⟨q, r⟩ := qr
    dsimp only
    split <;> rfl

/-- The selection step fails only on an empty remainder. -/
theorem pickNearest_eq_none (dist : Rat → Rat → Rat → Rat → Rat) (a b : Rat)
    (l : List RoutePoint) (h : pickNearest dist a b l = none) : l = [] := by
  cases l with
  | nil => rfl
  | cons p rest =>
    exfalso
    have hs := pickNearest_cons_isSome dist a b p rest
    rw [h] at hs
    simp at hs

/-- A successful selection returns a nearest row together with the other rows:
the chosen row and the returned remainder permute the input, the chosen row
minimizes the distance from the current position, and the remainder is one row
shorter. -/
theorem pickNearest_some_spec (dist : Rat → Rat → Rat → Rat → Rat) (a b : Rat) :
    ∀ (l : List RoutePoint) (q : RoutePoint) (r : List RoutePoint),
      pickNearest dist a b l = some (q, r) →
        (q :: r).Perm l
        ∧ (∀ x ∈ l, dist a b q.latitud q.longitud ≤ dist a b x.latitud x.longitud)
        ∧ r.length + 1 = l.length := by
  intro l
  induction l with
  | nil => intro q r h; exact absurd h (by simp [pickNearest])
  | cons p rest ih =>
    intro q r h
    simp only [pickNearest] at h
    cases hrec : pickNearest dist a b rest with
    | none =>
      have hnil : rest = [] := pickNearest_eq_none dist a b rest hrec
      rw [hrec] at h
      obtain ⟨rfl, rfl⟩ : p = q ∧ ([] : List RoutePoint) = r := by
        constructor <;> cases h <;> rfl
      subst hnil
      refine ⟨.refl _, ?_, rfl⟩
      intro x hx
      rcases List.mem_singleton.mp hx with rfl
      exact le_refl _
    | some qr =>
      obtain ⟨q', r'⟩ := qr
      rw [hrec] at h
      dsimp only at h
      obtain ⟨hperm', hmin', hlen'⟩ := ih q' r' hrec
      by_cases hle : dist a b p.latitud p.longitud ≤ dist a b q'.latitud q'.longitud
      · rw [if_pos hle] at h
        obtain ⟨rfl, rfl⟩ : p = q ∧ rest = r := by
          constructor <;> cases h <;> rfl
        refine ⟨.refl _, ?_, rfl⟩
        intro x hx
        rcases List.mem_cons.mp hx with rfl | hx
        · exact le_refl _
        · exact le_trans hle (hmin' x hx)
      · rw [if_neg hle] at h
        obtain ⟨rfl, rfl⟩ : q' = q ∧ p :: r' = r := by
          constructor <;> cases h <;> rfl
        refine ⟨?_, ?_, ?_⟩
        · exact (List.Perm.swap p q' r').trans (hperm'.cons p)
        · intro x hx
          rcases List.mem_cons.mp hx with rfl | hx
          · exact le_of_lt (lt_of_not_le hle)
          · exact hmin' x hx
        · simp only [List.length_cons]
          omega

/-- Every fuelled run of the loop with enough fuel returns a permutation of
the remaining rows forming a greedy chain from the current row. -/
theorem routeLoop_spec (dist : Rat → Rat → Rat → Rat → Rat) :
    ∀ (n : Nat) (cur : RoutePoint) (rem : List RoutePoint), rem.length ≤ n →
      (routeLoop dist n cur rem).Perm rem ∧ GreedyFrom dist (cur :: routeLoop dist n cur rem) := by
  intro n
  induction n with
  | zero =>
    intro cur rem hlen
    have : rem = [] := List.length_eq_zero.mp (Nat.le_zero.mp hlen)
    subst this
    exact ⟨.refl _, trivial⟩
  | succ n ih =>
    intro cur rem hlen
    simp only [routeLoop]
    cases hpick : pickNearest dist cur.latitud cur.longitud rem with
    | none =>
      have : rem = [] := pickNearest_eq_none _ _ _ _ hpick
      subst this
      exact ⟨.refl _, trivial⟩
    | some qr =>
      obtain ⟨q, r⟩ := qr
      obtain ⟨hperm, hmin, hlen1⟩ := pickNearest_some_spec dist _ _ rem q r hpick
      obtain ⟨ihp, ihg⟩ := ih q r (by omega)
      have hsub : ∀ x ∈ q :: routeLoop dist n q r, x ∈ rem := by
        intro x hx
        rcases List.mem_cons.mp hx with rfl | hx
        · exact hperm.subset (List.mem_cons_self _ _)
        · exact hperm.subset (List.mem_cons_of_mem _ (ihp.subset hx))
      refine ⟨?_, ?_⟩
      · exact (ihp.cons q).trans hperm
      · exact ⟨fun x hx => hmin x (hsub x hx), ihg⟩

/- ### Claim C8 -/

/-- Claim C8, confirmed: for every list of stops and every distance function
(the haversine great-circle distance of the source is floating-point and is
abstracted as the parameter `dist`), the route builder returns a permutation
of the input rows that starts at the first input row, in which every
subsequent row is a nearest not-yet-visited row; empty and one-row inputs are
returned unchanged. -/
theorem claim_C8 (dist : Rat → Rat → Rat → Rat → Rat) (pts : List RoutePoint) :
    (build_route_nearest_neighbor dist pts).Perm pts
    ∧ (build_route_nearest_neighbor dist pts).head? = pts.head?
    ∧ GreedyFrom dist (build_route_nearest_neighbor dist pts)
    ∧ build_route_nearest_neighbor dist [] = []
    ∧ ∀ p, build_route_nearest_neighbor dist [p] = [p] := by
  cases pts with
  | nil => exact ⟨.refl _, rfl, trivial, rfl, fun p => rfl⟩
  | cons p rest =>
    cases rest with
    | nil => exact ⟨.refl _, rfl, trivial, rfl, fun p => rfl⟩
    | cons p2 rest2 =>
      obtain ⟨hperm, hgreedy⟩ :=
        routeLoop_spec dist (p2 :: rest2).length p (p2 :: rest2) (le_refl _)
      exact ⟨hperm.cons p, rfl, hgreedy, rfl, fun p => rfl⟩

/- ### Supporting lemmas: alerts -/

/-- An alert block is silent exactly when no present measurement violates its
condition. -/
theorem alertIf_eq_nil (o : Option Rat) (p : Rat → Prop) [DecidablePred p] (mk : Rat → Alert) :
    alertIf o p mk = [] ↔ ∀ v, o = some v → ¬p v := by
  cases o with
  | none => simp [alertIf]
  | some v =>
    by_cases hp : p v
    · simp [alertIf, hp]
    · simp [alertIf, hp]

/-- Membership in an alert block pins the measurement and its violation. -/
theorem mem_alertIf (o : Option Rat) (p : Rat → Prop) [DecidablePred p] (mk : Rat → Alert)
    (a : Alert) : a ∈ alertIf o p mk ↔ ∃ v, o = some v ∧ p v ∧ a = mk v := by
  cases o with
  | none => simp [alertIf]
  | some v =>
    by_cases hp : p v
    · simp [alertIf, hp]
    · simp [alertIf, hp]

/- ### Claim C10 -/

/-- Claim C10, confirmed: `compute_alerts` returns the empty list exactly when
every present measurement lies inside its fixed band (pH in [6.5, 9.5],
temperature in [10, 35], oxygen at least 3, lux at least 200, turbidity in
[5, 95]); moreover every raised alert records a present measurement that
violates its band, so a missing measurement never produces an alert. -/
theorem claim_C10 :
    (∀ row : SensorRow, compute_alerts row = [] ↔
      (∀ v, row.ph = some v → 6.5 ≤ v ∧ v ≤ 9.5) ∧
      (∀ v, row.temperatura_c = some v → 10 ≤ v ∧ v ≤ 35) ∧
      (∀ v, row.oxigeno_mg_l = some v → 3 ≤ v) ∧
      (∀ v, row.lux = some v → 200 ≤ v) ∧
      (∀ v, row.turbidez_porcentaje = some v → 5 ≤ v ∧ v ≤ 95))
    ∧ (∀ row v, Alert.ph v ∈ compute_alerts row → row.ph = some v ∧ (v < 6.5 ∨ 9.5 < v))
    ∧ (∀ row v, Alert.temp v ∈ compute_alerts row → row.temperatura_c = some v ∧ (v < 10 ∨ 35 < v))
    ∧ (∀ row v, Alert.o2 v ∈ compute_alerts row → row.oxigeno_mg_l = some v ∧ v < 3)
    ∧ (∀ row v, Alert.lux v ∈ compute_alerts row → row.lux = some v ∧ v < 200)
    ∧ (∀ row v, Alert.turb v ∈ compute_alerts row →
        row.turbidez_porcentaje = some v ∧ (v < 5 ∨ 95 < v)) := by
  refine ⟨?_, ?_, ?_, ?_, ?_, ?_⟩
  · intro row
    simp only [compute_alerts, List.append_eq_nil, alertIf_eq_nil, not_or, not_lt]
    tauto
  · intro row v h
    simp only [compute_alerts, List.mem_append, mem_alertIf] at h
    rcases h with ((((⟨v', hv', hp', heq⟩ | ⟨v', hv', hp', heq⟩) | ⟨v', hv', hp', heq⟩) |
      ⟨v', hv', hp', heq⟩) | ⟨v', hv', hp', heq⟩) <;> cases heq
    all_goals exact ⟨hv', hp'⟩
  · intro row v h
    simp only [compute_alerts, List.mem_append, mem_alertIf] at h
    rcases h with ((((⟨v', hv', hp', heq⟩ | ⟨v', hv', hp', heq⟩) | ⟨v', hv', hp', heq⟩) |
      ⟨v', hv', hp', heq⟩) | ⟨v', hv', hp', heq⟩) <;> cases heq
    all_goals exact ⟨hv', hp'⟩
  · intro row v h
    simp only [compute_alerts, List.mem_append, mem_alertIf] at h
    rcases h with ((((⟨v', hv', hp', heq⟩ | ⟨v', hv', hp', heq⟩) | ⟨v', hv', hp', heq⟩) |
      ⟨v', hv', hp', heq⟩) | ⟨v', hv', hp', heq⟩) <;> cases heq
    all_goals exact ⟨hv', hp'⟩
  · intro row v h
    simp only [compute_alerts, List.mem_append, mem_alertIf] at h
    rcases h with ((((⟨v', hv', hp', heq⟩ | ⟨v', hv', hp', heq⟩) | ⟨v', hv', hp', heq⟩) |
      ⟨v', hv', hp', heq⟩) | ⟨v', hv', hp', heq⟩) <;> cases heq
    all_goals exact ⟨hv', hp'⟩
  · intro row v h
    simp only [compute_alerts, List.mem_append, mem_alertIf] at h
    rcases h with ((((⟨v', hv', hp', heq⟩ | ⟨v', hv', hp', heq⟩) | ⟨v', hv', hp', heq⟩) |
      ⟨v', hv', hp', heq⟩) | ⟨v', hv', hp', heq⟩) <;> cases heq
    all_goals exact ⟨hv', hp'⟩

/-- Claim C10, witness: on a row whose only present measurement is a pH of 6,
the pH-alert membership clause recovers the measurement and its violation. -/
theorem claim_C10_witness :
    (({ ph := some 6, temperatura_c := none, oxigeno_mg_l := none, lux := none,
        turbidez_porcentaje := none } : SensorRow).ph = some 6)
    ∧ ((6 : Rat) < 6.5 ∨ (9.5 : Rat) < 6) :=
  claim_C10.2.1
    { ph := some 6, temperatura_c := none, oxigeno_mg_l := none, lux := none,
      turbidez_porcentaje := none } 6
    (by
      simp only [compute_alerts, List.mem_append, mem_alertIf]
      refine Or.inl (Or.inl (Or.inl (Or.inl ⟨6, rfl, ?_, rfl⟩)))
      norm_num)

/- ### Supporting lemmas: coordinate parser -/

/-- Digits are not whitespace. -/
theorem digit_not_space (c : Char) (h : isDigitChar c = true) : isSpaceChar c = false := by
  simp only [isDigitChar, decide_eq_true_eq] at h
  simp only [isSpaceChar, decide_eq_false_iff_not]
  omega

/-- Reading of a positive separator test. -/
theorem isSepChar_true (s : Char) (h : isSepChar s = true) : s = ',' ∨ s = '.' := by
  simpa only [isSepChar, decide_eq_true_eq] using h

/-- Body equation when a separator-digit pair follows the first digit run. -/
theorem numBody_eq_sep (l : List Char) (s d : Char) (rest : List Char)
    (hrest : l.dropWhile isDigitChar = s :: d :: rest)
    (hsep : isSepChar s = true) (hd : isDigitChar d = true) :
    numBody l = (l.takeWhile isDigitChar ++ s :: (d :: rest).takeWhile isDigitChar,
      (d :: rest).dropWhile isDigitChar) := by
  unfold numBody
  rw [hrest]
  dsimp only
  rw [if_pos ⟨hsep, hd⟩]

/-- Body equation when the characters after the first digit run do not start
with a separator-digit pair. -/
theorem numBody_eq_nosep (l : List Char) (s d : Char) (rest : List Char)
    (hrest : l.dropWhile isDigitChar = s :: d :: rest)
    (hcond : ¬(isSepChar s = true ∧ isDigitChar d = true)) :
    numBody l = (l.takeWhile isDigitChar, s :: d :: rest) := by
  unfold numBody
  rw [hrest]
  dsimp only
  rw [if_neg hcond]

/-- Body equation when fewer than two characters follow the first digit run. -/
theorem numBody_eq_short (l : List Char) (r : List Char)
    (hrest : l.dropWhile isDigitChar = r)
    (hr : ∀ (s d : Char) (rest : List Char), r ≠ s :: d :: rest) :
    numBody l = (l.takeWhile isDigitChar, r) := by
  unfold numBody
  rw [hrest]
  cases r with
  | nil => rfl
  | cons a as =>
    cases as with
    | nil => rfl
    | cons b bs => exact absurd rfl (hr a b bs)

/-- Decomposition produced by the regex body on an input starting with a
digit: the input splits into the matched token and the remaining characters,
the token is an unsigned coordinate token, and the match is greedily
maximal. -/
theorem numBody_parts (l : List Char) (hne : l.takeWhile isDigitChar ≠ []) :
    l = (numBody l).1 ++ (numBody l).2
    ∧ (∃ ds tail, (numBody l).1 = ds ++ tail ∧ ds ≠ [] ∧ (∀ c ∈ ds, isDigitChar c = true) ∧
        (tail = [] ∨ ∃ sep fs, tail = sep :: fs ∧ (sep = ',' ∨ sep = '.') ∧ fs ≠ [] ∧
          ∀ c ∈ fs, isDigitChar c = true))
    ∧ CannotExtendCoord (numBody l).1 (numBody l).2 := by
  have hsplit := List.takeWhile_append_dropWhile (p := isDigitChar) (l := l)
  cases hrest : l.dropWhile isDigitChar with
  | nil =>
    rw [numBody_eq_short l [] hrest (fun s d rest h => List.noConfusion h)]
    rw [hrest] at hsplit
    refine ⟨hsplit.symm, ⟨l.takeWhile isDigitChar, [], by simp, hne,
      fun c hc => List.mem_takeWhile_imp hc, Or.inl rfl⟩, ?_, ?_⟩
    · intro d r h
      exact absurd h (by simp)
    · right
      intro sep d r h
      exact absurd h (by simp)
  | cons s as =>
    cases as with
    | nil =>
      rw [numBody_eq_short l [s] hrest (fun s' d rest h => by
        cases h
        )]
      rw [hrest] at hsplit
      refine ⟨hsplit.symm, ⟨l.takeWhile isDigitChar, [], by simp, hne,
        fun c hc => List.mem_takeWhile_imp hc, Or.inl rfl⟩, ?_, ?_⟩
      · intro d r h
        cases h
        exact head_dropWhile_false isDigitChar l s (by rw [hrest]; rfl)
      · right
        intro sep d r h
        cases h
    | cons d rest =>
      by_cases hcond : isSepChar s = true ∧ isDigitChar d = true
      · rw [numBody_eq_sep l s d rest hrest hcond.1 hcond.2]
        have hsplit2 := List.takeWhile_append_dropWhile (p := isDigitChar) (l := d :: rest)
        rw [hrest] at hsplit
        refine ⟨?_, ⟨l.takeWhile isDigitChar, s :: (d :: rest).takeWhile isDigitChar, rfl, hne,
          fun c hc => List.mem_takeWhile_imp hc, Or.inr ⟨s, (d :: rest).takeWhile isDigitChar,
          rfl, isSepChar_true s hcond.1, ?_, fun c hc => List.mem_takeWhile_imp hc⟩⟩, ?_, ?_⟩
        · show l = (l.takeWhile isDigitChar ++ s :: (d :: rest).takeWhile isDigitChar) ++
            (d :: rest).dropWhile isDigitChar
          rw [List.append_assoc, List.cons_append, hsplit2]
          exact hsplit.symm
        · rw [List.takeWhile_cons_of_pos hcond.2]
          simp
        · intro d' r h
          dsimp only at h
          exact head_dropWhile_false isDigitChar (d :: rest) d' (by rw [h]; rfl)
        · left
          exact ⟨s, List.mem_append_right _ (List.mem_cons_self s _), hcond.1⟩
      · rw [numBody_eq_nosep l s d rest hrest hcond]
        rw [hrest] at hsplit
        refine ⟨hsplit.symm, ⟨l.takeWhile isDigitChar, [], by simp, hne,
          fun c hc => List.mem_takeWhile_imp hc, Or.inl rfl⟩, ?_, ?_⟩
        · intro d' r h
          cases h
          exact head_dropWhile_false isDigitChar l s (by rw [hrest]; rfl)
        · right
          intro sep d' r h
          cases h
          exact hcond

/-- A successful anchored match decomposes its input into a coordinate token
and the remaining characters, with the token greedily maximal. -/
theorem matchCoordAt_some : ∀ (l t r : List Char), matchCoordAt l = some (t, r) →
    l = t ++ r ∧ IsCoordToken t ∧ CannotExtendCoord t r := by
  intro l t r h
  cases l with
  | nil => exact absurd h (by simp [matchCoordAt])
  | cons c rest =>
    simp only [matchCoordAt] at h
    by_cases hc : c = '-' ∨ c = '+'
    · rw [if_pos hc] at h
      cases rest with
      | nil => exact absurd h (by simp)
      | cons d rest2 =>
        dsimp only at h
        by_cases hd : isDigitChar d = true
        · rw [if_pos hd] at h
          injection h with h2
          rw [Prod.mk.injEq] at h2
          obtain ⟨rfl, rfl⟩ := h2
          have hne : (d :: rest2).takeWhile isDigitChar ≠ [] := by
            rw [List.takeWhile_cons_of_pos hd]
            simp
          obtain ⟨hdec, ⟨ds, tail, hth, hds, hdig, htail⟩, hcx⟩ := numBody_parts (d :: rest2) hne
          refine ⟨?_, ?_, ?_⟩
          · rw [List.cons_append, ← hdec]
          · refine ⟨[c], ds, tail, ?_, ?_, hds, hdig, htail⟩
            · rw [hth]
              rfl
            · rcases hc with rfl | rfl
              · exact Or.inr (Or.inl rfl)
              · exact Or.inr (Or.inr rfl)
          · refine ⟨hcx.1, ?_⟩
            rcases hcx.2 with ⟨x, hx, hsx⟩ | hr
            · exact Or.inl ⟨x, List.mem_cons_of_mem c hx, hsx⟩
            · exact Or.inr hr
        · rw [if_neg hd] at h
          exact absurd h (by simp)
    · rw [if_neg hc] at h
      by_cases hd : isDigitChar c = true
      · rw [if_pos hd] at h
        injection h with h2
        obtain ⟨rfl, rfl⟩ : (numBody (c :: rest)).1 = t ∧ (numBody (c :: rest)).2 = r := by
          rw [h2]
          exact ⟨rfl, rfl⟩
        have hne : (c :: rest).takeWhile isDigitChar ≠ [] := by
          rw [List.takeWhile_cons_of_pos hd]
          simp
        obtain ⟨hdec, ⟨ds, tail, hth, hds, hdig, htail⟩, hcx⟩ := numBody_parts (c :: rest) hne
        exact ⟨hdec, ⟨[], ds, tail, hth, Or.inl rfl, hds, hdig, htail⟩, hcx⟩
      · rw [if_neg hd] at h
        exact absurd h (by simp)

/-- A failed anchored match means no match can start at this position. -/
theorem matchCoordAt_none (l : List Char) (h : matchCoordAt l = none) :
    ¬StartsCoordMatch l := by
  intro hs
  rcases hs with ⟨d, r, rfl, hd⟩ | ⟨c, d, r, rfl, hc, hd⟩
  · have hcs : ¬(d = '-' ∨ d = '+') := by
      rintro (rfl | rfl) <;> exact absurd hd (by decide)
    simp only [matchCoordAt] at h
    rw [if_neg hcs, if_pos hd] at h
    exact absurd h (by simp)
  · simp only [matchCoordAt] at h
    rw [if_pos hc] at h
    rw [if_pos hd] at h
    exact absurd h (by simp)

/-- On an input without digits the anchored match fails. -/
theorem matchCoordAt_eq_none (l : List Char) (hall : ∀ c ∈ l, isDigitChar c = false) :
    matchCoordAt l = none := by
  cases l with
  | nil => rfl
  | cons c rest =>
    simp only [matchCoordAt]
    have hcd : isDigitChar c = false := hall c (List.mem_cons_self c rest)
    by_cases hc : c = '-' ∨ c = '+'
    · rw [if_pos hc]
      cases rest with
      | nil => rfl
      | cons d rest2 =>
        dsimp only
        rw [if_neg (by simp [hall d (by simp)])]
    · rw [if_neg hc, if_neg (by simp [hcd])]

/-- A successful search decomposes its input into an unmatched head, the
matched token and the remaining characters; nothing matches at any earlier
position. -/
theorem searchCoord_some : ∀ (l pre t r : List Char), searchCoord l = some (pre, t, r) →
    l = pre ++ t ++ r ∧ matchCoordAt (t ++ r) = some (t, r) ∧
      ∀ i < pre.length, matchCoordAt (l.drop i) = none := by
  intro l
  induction l with
  | nil => intro pre t r h; exact absurd h (by simp [searchCoord])
  | cons c rest ih =>
    intro pre t r h
    simp only [searchCoord] at h
    cases hm : matchCoordAt (c :: rest) with
    | some tr =>
      obtain ⟨t0, r0⟩ := tr
      rw [hm] at h
      dsimp only at h
      injection h with h2
      rw [Prod.mk.injEq, Prod.mk.injEq] at h2
      obtain ⟨rfl, rfl, rfl⟩ : ([] : List Char) = pre ∧ t0 = t ∧ r0 = r :=
        ⟨h2.1, h2.2.1, h2.2.2⟩
      have hdec := (matchCoordAt_some _ _ _ hm).1
      refine ⟨?_, ?_, ?_⟩
      · show c :: rest = t0 ++ r0
        exact hdec
      · rw [← hdec]
        exact hm
      · intro i hi
        simp at hi
    | none =>
      rw [hm] at h
      dsimp only at h
      cases hs : searchCoord rest with
      | none =>
        rw [hs] at h
        exact absurd h (by simp)
      | some ptr =>
        obtain ⟨pre', t', r'⟩ := ptr
        rw [hs] at h
        dsimp only at h
        injection h with h2
        rw [Prod.mk.injEq, Prod.mk.injEq] at h2
        obtain ⟨rfl, rfl, rfl⟩ : c :: pre' = pre ∧ t' = t ∧ r' = r :=
          ⟨h2.1, h2.2.1, h2.2.2⟩
        obtain ⟨hdec, hmatch, hleft⟩ := ih pre' t' r' hs
        refine ⟨by rw [hdec]; rfl, hmatch, ?_⟩
        intro i hi
        cases i with
        | zero => exact hm
        | succ j =>
          simp only [List.length_cons] at hi
          exact hleft j (by omega)

/-- The search fails exactly on inputs that contain no digit. -/
theorem searchCoord_none_iff : ∀ l : List Char,
    searchCoord l = none ↔ ∀ c ∈ l, isDigitChar c = false := by
  intro l
  induction l with
  | nil => simp [searchCoord]
  | cons c rest ih =>
    constructor
    · intro h x hx
      simp only [searchCoord] at h
      cases hm : matchCoordAt (c :: rest) with
      | some tr =>
        obtain ⟨t0, r0⟩ := tr
        rw [hm] at h
        dsimp only at h
        exact absurd h (by simp)
      | none =>
        rw [hm] at h
        dsimp only at h
        cases hs : searchCoord rest with
        | some ptr =>
          obtain ⟨a, b, c2⟩ := ptr
          rw [hs] at h
          dsimp only at h
          exact absurd h (by simp)
        | none =>
          have hrest := ih.mp hs
          rcases List.mem_cons.mp hx with rfl | hx2
          · cases hdig : isDigitChar x with
            | false => rfl
            | true => exact absurd (Or.inl ⟨x, rest, rfl, hdig⟩) (matchCoordAt_none _ hm)
          · exact hrest x hx2
    · intro hall
      simp only [searchCoord]
      rw [matchCoordAt_eq_none (c :: rest) hall]
      dsimp only
      rw [ih.mpr (fun x hx => hall x (List.mem_cons_of_mem c hx))]

/-- A non-whitespace character survives `stripRight`. -/
theorem mem_stripRight_of_mem {x : Char} {s : List Char} (hx : x ∈ s)
    (hns : isSpaceChar x = false) : x ∈ stripRight s := by
  unfold stripRight
  rw [List.mem_reverse]
  have hx2 : x ∈ s.reverse := List.mem_reverse.mpr hx
  have hsplit := List.takeWhile_append_dropWhile (p := isSpaceChar) (l := s.reverse)
  rw [← hsplit] at hx2
  rcases List.mem_append.mp hx2 with h1 | h2
  · exact absurd (List.mem_takeWhile_imp h1) (by simp [hns])
  · exact h2

/-- A non-whitespace character survives `stripLeft`. -/
theorem mem_stripLeft_of_mem {x : Char} {s : List Char} (hx : x ∈ s)
    (hns : isSpaceChar x = false) : x ∈ stripLeft s := by
  unfold stripLeft
  have hsplit := List.takeWhile_append_dropWhile (p := isSpaceChar) (l := s)
  rw [← hsplit] at hx
  rcases List.mem_append.mp hx with h1 | h2
  · exact absurd (List.mem_takeWhile_imp h1) (by simp [hns])
  · exact h2

/-- A non-whitespace character survives stripping. -/
theorem mem_pyStrip_of_mem {x : Char} {s : List Char} (hx : x ∈ s)
    (hns : isSpaceChar x = false) : x ∈ pyStrip s :=
  mem_stripLeft_of_mem (mem_stripRight_of_mem hx hns) hns

/-- The stripped string sits inside the original string. -/
theorem pyStrip_within (s : List Char) : pyStrip s <:+: s := by
  have h1 : pyStrip s <:+ stripRight s := List.dropWhile_suffix isSpaceChar
  have h2 : stripRight s <+: s := by
    have h3 := (List.reverse_prefix.mpr (List.dropWhile_suffix (l := s.reverse) isSpaceChar))
    rwa [List.reverse_reverse] at h3
  obtain ⟨u, hu⟩ := h1
  obtain ⟨w, hw⟩ := h2
  exact ⟨u, w, by rw [hu, hw]⟩

/-- Every coordinate token contains a digit. -/
theorem isCoordToken_has_digit {t : List Char} (h : IsCoordToken t) :
    ∃ d ∈ t, isDigitChar d = true := by
  obtain ⟨sgn, ds, tail, rfl, hsgn, hne, hdig, htail⟩ := h
  cases ds with
  | nil => exact absurd rfl hne
  | cons d ds2 => exact ⟨d, by simp, hdig d (by simp)⟩

/-- A single digit is a coordinate token. -/
theorem isCoordToken_singleton {d : Char} (hd : isDigitChar d = true) : IsCoordToken [d] :=
  ⟨[], [d], [], rfl, Or.inl rfl, by simp, by simpa, Or.inl rfl⟩

/-- Unfolding of the parser on a present value. -/
theorem to_float_coord_some (s : List Char) :
    to_float_coord (some s) =
      (match searchCoord (pyStrip s) with
       | none => none
       | some (_, t, _) => some (tokenVal t)) := rfl

/- ### Claim C9 -/

/-- Claim C9, confirmed: the coordinate parser is total by construction (the
`try/except` around `float` is unreachable on a matched token); it returns
`none` exactly when the value is missing or its string form contains no
substring matching `[-+]?\d+(?:[.,]\d+)?`; and any returned value is the exact
rational value (commas read as decimal points) of the leftmost, greedily
maximal matching substring of the stripped string. -/
theorem claim_C9 :
    to_float_coord none = none
    ∧ (∀ s : List Char, to_float_coord (some s) = none ↔ ¬∃ t, IsCoordToken t ∧ t <:+: s)
    ∧ (∀ (s : List Char) (v : Rat), to_float_coord (some s) = some v →
        ∃ pre t post, pyStrip s = pre ++ t ++ post ∧ IsCoordToken t ∧ v = tokenVal t ∧
          (∀ i < pre.length, ¬StartsCoordMatch ((pyStrip s).drop i)) ∧
          CannotExtendCoord t post) := by
  refine ⟨rfl, ?_, ?_⟩
  · intro s
    constructor
    · intro h hex
      obtain ⟨t, htok, hinf⟩ := hex
      cases hs : searchCoord (pyStrip s) with
      | some ptr =>
        obtain ⟨pre, t0, r0⟩ := ptr
        rw [to_float_coord_some, hs] at h
        exact absurd h (by simp)
      | none =>
        have hall := (searchCoord_none_iff _).mp hs
        obtain ⟨d, hdt, hdd⟩ := isCoordToken_has_digit htok
        have hds : d ∈ s := hinf.sublist.subset hdt
        have hdp : d ∈ pyStrip s := mem_pyStrip_of_mem hds (digit_not_space d hdd)
        exact absurd (hall d hdp) (by simp [hdd])
    · intro hno
      cases hs : searchCoord (pyStrip s) with
      | none => rw [to_float_coord_some, hs]
      | some ptr =>
        obtain ⟨pre, t0, r0⟩ := ptr
        exfalso
        obtain ⟨hdec, hmatch, _⟩ := searchCoord_some _ _ _ _ hs
        obtain ⟨_, htok, _⟩ := matchCoordAt_some _ _ _ hmatch
        have h1 : t0 <:+: pyStrip s := ⟨pre, r0, hdec.symm⟩
        exact hno ⟨t0, htok, List.IsInfix.trans h1 (pyStrip_within s)⟩
  · intro s v h
    cases hs : searchCoord (pyStrip s) with
    | none =>
      rw [to_float_coord_some, hs] at h
      exact absurd h (by simp)
    | some ptr =>
      obtain ⟨pre, t0, r0⟩ := ptr
      rw [to_float_coord_some, hs] at h
      dsimp only at h
      injection h with h2
      obtain ⟨hdec, hmatch, hleft⟩ := searchCoord_some _ _ _ _ hs
      obtain ⟨_, htok, hext⟩ := matchCoordAt_some _ _ _ hmatch
      exact ⟨pre, t0, r0, hdec, htok, h2.symm, fun i hi => matchCoordAt_none _ (hleft i hi), hext⟩

/-- Claim C9, witness: on the concrete input `"x7"` the parser returns 7 and
the main theorem produces the leftmost-match decomposition. -/
theorem claim_C9_witness :
    ∃ pre t post, pyStrip "x7".toList = pre ++ t ++ post ∧ IsCoordToken t ∧
      (7 : Rat) = tokenVal t ∧
      (∀ i < pre.length, ¬StartsCoordMatch ((pyStrip "x7".toList).drop i)) ∧
      CannotExtendCoord t post :=
  claim_C9.2.2 "x7".toList 7 (by decide)

end Technolab
